import Mathlib

/-!
Verification of the actor-search engine (scripts/search.py).

Strings are modelled as `List Char`.  Python `str.lower` is modelled
per-character (`Char.toLower`, faithful on the ASCII range the engine
compares), `str.strip` / `str.split()` use `Char.isWhitespace`, and
`str.split(' ')` is `pySplitChar ' '`.

The fuzzy matcher `fuzz.partial_ratio` (fuzzywuzzy, backed by difflib's
`SequenceMatcher` with `isjunk = None` and `autojunk = True`) is embedded
executably below.  Floating point only appears in difflib as the final
`2.0 * matches / total` ratio; the comparisons `r > .995` and
`int(100 * r)` are modelled by exact rational arithmetic
(`400 * M > 199 * T` and `200 * M / T`).
-/

set_option maxRecDepth 40000

/-- Python `str.lower()`, per character (ASCII-faithful). -/
def pyLower (s : List Char) : List Char := s.map Char.toLower

/-- Python `str.strip()`: remove leading and trailing whitespace. -/
def pyStrip (s : List Char) : List Char :=
  ((s.dropWhile Char.isWhitespace).reverse.dropWhile Char.isWhitespace).reverse

/-- Python `str.split()` with no separator: whitespace runs, no empty tokens. -/
def pySplitWs (s : List Char) : List (List Char) :=
  (s.splitOnP Char.isWhitespace).filter (fun t => !t.isEmpty)

/-- Python `str.split(sep)` for a one-character separator: split at
every occurrence of `c`, keeping empty pieces (so never empty). -/
def pySplitChar (c : Char) : List Char → List (List Char)
  | [] => [[]]
  | x :: xs =>
    if x = c then [] :: pySplitChar c xs
    else
      match pySplitChar c xs with
      | t :: ts => (x :: t) :: ts
      | [] => [[x]]

/-- Python `needle in hay` substring test. -/
def strContains (hay needle : List Char) : Bool :=
  (List.range (hay.length + 1)).any (fun i => needle.isPrefixOf (hay.drop i))

/-- Python string `<=` : lexicographic comparison by code point. -/
def strLe : List Char → List Char → Bool
  | [], _ => true
  | _ :: _, [] => false
  | a :: as, b :: bs =>
    if a.val < b.val then true
    else if b.val < a.val then false
    else strLe as bs

/-! ## difflib / fuzzywuzzy model

`SequenceMatcher(None, a, b)` with `autojunk`: when `len(b) >= 200`,
characters occurring in `b` more than `len(b) // 100 + 1` times are
"popular" and removed from the index `b2j` (they are *not* junk, so the
extension loops of `find_longest_match` still cross them; the junk-only
extension loops never fire because `isjunk` is `None`). -/

/-- A character of `b` purged from `b2j` by difflib's autojunk heuristic. -/
def isPopular (b : List Char) (c : Char) : Bool :=
  decide (200 ≤ b.length) && decide (b.length / 100 + 1 < b.count c)

/-- Both positions exist and hold the same character. -/
def sameAt (a b : List Char) (i j : Nat) : Bool :=
  match a.get? i, b.get? j with
  | some c, some d => c == d
  | _, _ => false

/-- Length of the matching run ending at `(i, j)` that difflib's `j2len`
dynamic program computes inside `find_longest_match` for the window
starting at `(alo, blo)`: pairs whose `b`-character was purged by
autojunk contribute nothing (they are absent from `b2j`). -/
def kmat (a b : List Char) (alo blo : Nat) : Nat → Nat → Nat
  | 0, j =>
    if ¬ (sameAt a b 0 j ∧ ¬ isPopular b (b.getD j ' ')) then 0
    else if 0 < alo ∨ j < blo then 0
    else 1
  | i + 1, j =>
    if ¬ (sameAt a b (i + 1) j ∧ ¬ isPopular b (b.getD j ' ')) then 0
    else if i + 1 < alo ∨ j < blo then 0
    else if i + 1 = alo ∨ j = blo then 1
    else kmat a b alo blo i (j - 1) + 1

/-- The row-major scan order of `find_longest_match`'s main loop over the
window `[alo, ahi) × [blo, bhi)`. -/
def allPairs (alo ahi blo bhi : Nat) : List (Nat × Nat) :=
  (List.range' alo (ahi - alo)).flatMap
    (fun i => (List.range' blo (bhi - blo)).map (fun j => (i, j)))

/-- One step of the main loop: record `(i-k+1, j-k+1, k)` when the run
ending at the scanned pair strictly beats the best size so far. -/
def flmStep (a b : List Char) (alo blo : Nat)
    (st : Nat × Nat × Nat) (p : Nat × Nat) : Nat × Nat × Nat :=
  let k := kmat a b alo blo p.1 p.2
  if st.2.2 < k then (p.1 + 1 - k, p.2 + 1 - k, k) else st

/-- Main loop of `find_longest_match`: best block before extension.
Python only scans pairs present in `b2j` (same character, not popular),
but every other pair has run length 0 and can never trigger an update,
so scanning the full window is equivalent. -/
def flmScan (a b : List Char) (alo ahi blo bhi : Nat) : Nat × Nat × Nat :=
  (allPairs alo ahi blo bhi).foldl (flmStep a b alo blo) (alo, blo, 0)

/-- First extension loop: grow the block downwards while the preceding
characters agree (`isjunk` is `None`, so the junk test never blocks). -/
def extendDown (a b : List Char) (alo blo : Nat) :
    Nat → Nat × Nat × Nat → Nat × Nat × Nat
  | 0, st => st
  | fuel + 1, (bi, bj, bs) =>
    if alo < bi ∧ blo < bj ∧ sameAt a b (bi - 1) (bj - 1) then
      extendDown a b alo blo fuel (bi - 1, bj - 1, bs + 1)
    else (bi, bj, bs)

/-- Second extension loop: grow the block upwards while in-window
characters agree. -/
def extendUp (a b : List Char) (ahi bhi : Nat) :
    Nat → Nat × Nat × Nat → Nat × Nat × Nat
  | 0, st => st
  | fuel + 1, (bi, bj, bs) =>
    if bi + bs < ahi ∧ bj + bs < bhi ∧ sameAt a b (bi + bs) (bj + bs) then
      extendUp a b ahi bhi fuel (bi, bj, bs + 1)
    else (bi, bj, bs)

/-- difflib `find_longest_match` on the window `[alo, ahi) × [blo, bhi)`
(the two junk-extension loops are dead code because `isjunk` is `None`). -/
def findLongestMatch (a b : List Char) (alo ahi blo bhi : Nat) :
    Nat × Nat × Nat :=
  extendUp a b ahi bhi (ahi + bhi)
    (extendDown a b alo blo (alo + blo) (flmScan a b alo ahi blo bhi))

/-- Recursive block collection of difflib `get_matching_blocks` (the
LIFO queue plus final sort is equivalent to in-order recursion). -/
def gmbRec (a b : List Char) : Nat → Nat → Nat → Nat → Nat →
    List (Nat × Nat × Nat)
  | 0, _, _, _, _ => []
  | fuel + 1, alo, ahi, blo, bhi =>
    let x := findLongestMatch a b alo ahi blo bhi
    if x.2.2 = 0 then []
    else
      (if alo < x.1 ∧ blo < x.2.1 then gmbRec a b fuel alo x.1 blo x.2.1 else [])
        ++ [x]
        ++ (if x.1 + x.2.2 < ahi ∧ x.2.1 + x.2.2 < bhi then
              gmbRec a b fuel (x.1 + x.2.2) ahi (x.2.1 + x.2.2) bhi
            else [])

/-- Merge adjacent blocks, as in `get_matching_blocks`. -/
def mergeAdjacent : Nat → Nat → Nat → List (Nat × Nat × Nat) →
    List (Nat × Nat × Nat)
  | i1, j1, k1, [] => if k1 ≠ 0 then [(i1, j1, k1)] else []
  | i1, j1, k1, (i2, j2, k2) :: rest =>
    if i1 + k1 = i2 ∧ j1 + k1 = j2 then mergeAdjacent i1 j1 (k1 + k2) rest
    else if k1 ≠ 0 then (i1, j1, k1) :: mergeAdjacent i2 j2 k2 rest
    else mergeAdjacent i2 j2 k2 rest

/-- difflib `get_matching_blocks`, terminal `(la, lb, 0)` block included. -/
def getMatchingBlocks (a b : List Char) : List (Nat × Nat × Nat) :=
  mergeAdjacent 0 0 0
      (gmbRec a b (a.length + b.length + 1) 0 a.length 0 b.length)
    ++ [(a.length, b.length, 0)]

/-- Total size matched, the `matches` of difflib's `ratio`. -/
def sumSizes (blocks : List (Nat × Nat × Nat)) : Nat :=
  blocks.foldl (fun s bl => s + bl.2.2) 0

/-- fuzzywuzzy's scaled score for one candidate alignment: 100 when the
raw ratio `2M/T` exceeds 0.995, else `int(100 * 2M/T)`, in exact
arithmetic. -/
def ratioScore (m t : Nat) : Nat :=
  if 199 * t < 400 * m then 100 else 200 * m / t

/-- fuzzywuzzy `fuzz.partial_ratio` (0-100): empty input scores 0; else
slide the shorter string along the longer at the offsets suggested by
the matching blocks and take the best scaled ratio. -/
def pRatio (s1 s2 : List Char) : Nat :=
  if s1.isEmpty || s2.isEmpty then 0
  else
    let p := if s1.length ≤ s2.length then (s1, s2) else (s2, s1)
    let shorter := p.1
    let longer := p.2
    let scores := (getMatchingBlocks shorter longer).map (fun bl =>
      let substr := (longer.drop (bl.2.1 - bl.1)).take shorter.length
      ratioScore (sumSizes (getMatchingBlocks shorter substr))
        (shorter.length + substr.length))
    scores.foldl max 0

/-- scripts/search.py `match_name`: 0-200 alikeness score between the
query and a candidate name. -/
def match_name (actor entry : List Char) : Nat :=
  let search_string := pySplitChar ' ' (pyLower (pyStrip actor))
  let entry_names := pySplitChar ' ' (pyLower entry)
  if search_string.length = 1 then
    let first_name_score := pRatio (search_string.headD []) (entry_names.headD [])
    let last_name_score := pRatio (search_string.headD []) (entry_names.getLastD [])
    if last_name_score < first_name_score then first_name_score * 2
    else last_name_score * 2
  else
    pRatio (search_string.headD []) (entry_names.headD []) +
      pRatio (search_string.getLastD []) (entry_names.getLastD [])

/-! ## Actor resolver (get_actor_details)

Upstream HTTP traffic is passed in as explicit parameters: the parsed
first search response (`none` models a body `response.json()` rejects),
and a map from page number to that page's response.  JSON objects are
modelled as typed records with `Option` fields, `none` meaning the key
is absent; Python raises `KeyError` on `data['results']`-style access of
an absent key, modelled by `Except PyErr`.  TMDB's float `popularity` is
modelled by an ordered numeric (`Int`); only its order is ever used. -/

/-- Exception outcome of running a piece of the Python engine. -/
inductive PyErr where
  | keyError
deriving DecidableEq, Repr

/-- One entry of a `search/person` results page. -/
structure PersonEntry where
  id : Option Int
  name : Option (List Char)
  popularity : Option Int
  known_for_department : Option (List Char)
  profile_path : Option (Option (List Char))
deriving DecidableEq, Repr

/-- Parsed body of the first `search/person` response. -/
structure SearchResponse where
  results : Option (List PersonEntry)
  total_pages : Option Int
deriving DecidableEq, Repr

/-- Response of one extra search page, as `get_another_page` sees it. -/
inductive PageResp where
  | badJson
  | noResults
  | ok (entries : List PersonEntry)

/-- Result dictionary of `get_actor_details`: the default result
`{id: None, name: query}` carries no `img` key (`img = none`). -/
structure ActorDetails where
  id : Option Int
  name : List Char
  img : Option (List Char)
deriving DecidableEq, Repr

/-- The default result of `get_actor_details`. -/
def defaultDetails (actor : List Char) : ActorDetails :=
  { id := none, name := actor, img := none }

/-- Image host path prepended to a truthy profile path. -/
def imgHost : List Char := "https://image.tmdb.org/t/p/w185".toList

/-- Sequence a list of possibly-raising computations, propagating the
first exception: models `asyncio.gather` over fallible coroutines. -/
def collectExcept {α : Type} : List (Except PyErr α) → Except PyErr (List α)
  | [] => .ok []
  | x :: xs =>
    match x with
    | .error e => .error e
    | .ok a => (collectExcept xs).map (fun as => a :: as)

/-- Python `range(lo, hi)` over integers. -/
def pyRange (lo hi : Int) : List Int :=
  (List.range (hi - lo).toNat).map (fun k => lo + Int.ofNat k)

/-- Page numbers requested by `fetch_more_pages`: cap `pages` at 12,
then `range(2, pages)` (the upper bound itself is excluded). -/
def fetch_more_pages_range (total_pages : Int) : List Int :=
  pyRange 2 (if 12 < total_pages then 12 else total_pages)

/-- scripts/search.py `get_another_page`: a body that fails to parse
degrades to `[]`; a parsed body lacking `results` raises `KeyError`. -/
def get_another_page (p : PageResp) : Except PyErr (List PersonEntry) :=
  match p with
  | .badJson => .ok []
  | .noResults => .error .keyError
  | .ok es => .ok es

/-- scripts/search.py `fetch_more_pages query pages`: gather the pages
`range(2, min(pages, 12))` concurrently and return their result lists. -/
def fetch_more_pages (pages : Int → PageResp) (total_pages : Int) :
    Except PyErr (List (List PersonEntry)) :=
  collectExcept ((fetch_more_pages_range total_pages).map
    (fun n => get_another_page (pages n)))

/-- Department filter plus the fuzzy-score filter of `get_actor_details`. -/
def survivors (actor : List Char) (data : List PersonEntry) : List PersonEntry :=
  (data.filter (fun d => d.known_for_department == some "Acting".toList)).filter
    (fun d => 175 < match_name actor (d.name.getD []))

/-- Candidates whose name equals the query case-insensitively. -/
def exactMatches (actor : List Char) (data : List PersonEntry) :
    List PersonEntry :=
  data.filter (fun d => pyLower (d.name.getD []) == pyLower actor)

/-- Stable insertion of `x` after every element `y` with `le y x`.
For a total comparison this reproduces Python's stable `sorted`. -/
def insertLe {α : Type} (le : α → α → Bool) (x : α) : List α → List α
  | [] => [x]
  | y :: ys => if le y x then y :: insertLe le x ys else x :: y :: ys

/-- Stable sort with respect to `le` (Python `sorted`, which is a stable
sort, produces the same list for any total `le`). -/
def pySorted {α : Type} (le : α → α → Bool) (l : List α) : List α :=
  l.foldl (fun acc x => insertLe le x acc) []

/-- Comparison used by `sorted(data, key=popularity, reverse=True)`:
`a` may precede `b` iff `a`'s popularity is at least `b`'s. -/
def popGe (a b : PersonEntry) : Bool :=
  b.popularity.getD 0 ≤ a.popularity.getD 0

/-- The junk entry used to express Python's `list[0]` total access. -/
def noEntry : PersonEntry :=
  { id := none, name := none, popularity := none,
    known_for_department := none, profile_path := none }

/-- Final pick of `get_actor_details` among the surviving candidates:
the first exact match if one exists and the query has at least two
whitespace tokens, else the head of the popularity-descending sort. -/
def pickEntry (actor : List Char) (data : List PersonEntry) : PersonEntry :=
  let exact := exactMatches actor data
  if (!exact.isEmpty) && decide (1 < (pySplitWs actor).length) then
    exact.headD noEntry
  else (pySorted popGe data).headD noEntry

/-- Build the result dictionary from the picked entry: `entry['id']`,
`entry['name']` and `entry['profile_path']` raise on an absent key; a
`null` or empty profile path yields an empty `img` string. -/
def buildDetails (entry : PersonEntry) : Except PyErr ActorDetails :=
  match entry.id with
  | none => .error .keyError
  | some i =>
    match entry.name with
    | none => .error .keyError
    | some nm =>
      match entry.profile_path with
      | none => .error .keyError
      | some pp =>
        .ok { id := some i, name := nm,
              img := some (match pp with
                           | none => []
                           | some path =>
                             if path.isEmpty then [] else imgHost ++ path) }

/-- scripts/search.py `get_actor_details` given the upstream responses. -/
def get_actor_details (actor : List Char) (resp : Option SearchResponse)
    (pages : Int → PageResp) : Except PyErr ActorDetails :=
  match resp with
  | none => .ok (defaultDetails actor)
  | some data0 =>
    match data0.results with
    | none => .error .keyError
    | some results =>
      if results.isEmpty then .ok (defaultDetails actor)
      else
        match (if 1 < data0.total_pages.getD 1 then
                 (fetch_more_pages pages (data0.total_pages.getD 1)).map
                   (fun extra => results ++ extra.flatten)
               else .ok results) with
        | .error e => .error e
        | .ok data =>
          let surv := survivors actor data
          if surv.isEmpty then .ok (defaultDetails actor)
          else buildDetails (pickEntry actor surv)

/-! ## Credit fetcher (get_actor_credits) -/

/-- One entry of a `combined_credits` cast array. -/
structure CastEntry where
  media_type : Option (List Char)
  id : Option Int
  title : Option (List Char)
  name : Option (List Char)
  character : Option (List Char)
  release_date : Option (List Char)
  first_air_date : Option (List Char)
  episode_count : Option Int
deriving DecidableEq, Repr

/-- The 4-character sentinel for an unknown year. -/
def ndYear : List Char := "n.d.".toList

/-- Movie record kept per provider ID. -/
structure MovieRecord where
  title : Option (List Char)
  year : List Char
  character : List Char
deriving DecidableEq, Repr

/-- TV record kept per provider ID. -/
structure TvRecord where
  title : Option (List Char)
  year : List Char
  character : List Char
  episodes : Int
deriving DecidableEq, Repr

/-- Movie record built from one cast entry:
`movie.get('release_date', 'n.d.')[:4]` takes the first 4 characters of
the present value (even when it is empty) and of the sentinel otherwise. -/
def mkMovieRec (e : CastEntry) : MovieRecord :=
  { title := e.title,
    year := (e.release_date.getD ndYear).take 4,
    character := e.character.getD [] }

/-- TV record built from one cast entry. -/
def mkTvRec (e : CastEntry) : TvRecord :=
  { title := e.name,
    year := (e.first_air_date.getD ndYear).take 4,
    character := e.character.getD [],
    episodes := e.episode_count.getD 0 }

/-- Python dict assignment `m[k] = v`: overwrite in place, else append. -/
def dictInsert {β : Type} (k : Option Int) (v : β) :
    List (Option Int × β) → List (Option Int × β)
  | [] => [(k, v)]
  | (k', v') :: rest =>
    if k' == k then (k, v) :: rest else (k', v') :: dictInsert k v rest

/-- scripts/search.py movie mapping: a dict comprehension keyed by
`movie.get('id')`, so a later entry with the same ID overwrites. -/
def buildMovies (l : List CastEntry) : List (Option Int × MovieRecord) :=
  l.foldl (fun m e => dictInsert e.id (mkMovieRec e) m) []

/-- scripts/search.py TV mapping: `setdefault` per entry, so the first
entry with a given ID wins and later ones are ignored. -/
def buildTv (l : List CastEntry) : List (Option Int × TvRecord) :=
  l.foldl (fun m e =>
    if (m.lookup e.id).isSome then m else m ++ [(e.id, mkTvRec e)]) []

/-- scripts/search.py `character_filter`: drop falsy characters and
self-appearance entries (substring test on the lowercased name). -/
def character_filter (c : List Char) : Bool :=
  if c.isEmpty then false
  else !(["himself".toList, "herself".toList, "self".toList].any
    (fun w => strContains (pyLower c) w))

/-- A filmography: insertion-ordered movie and TV mappings. -/
structure Filmography where
  movies : List (Option Int × MovieRecord)
  tv : List (Option Int × TvRecord)
deriving DecidableEq, Repr

/-- Parsed body of a `combined_credits` response. -/
structure CreditsResponse where
  cast : Option (List CastEntry)
deriving DecidableEq, Repr

/-- Cast entries surviving the character filter. -/
def keptCast (cast : List CastEntry) : List CastEntry :=
  cast.filter (fun d => character_filter (d.character.getD []))

/-- scripts/search.py `get_actor_credits` given the upstream response:
`None` for an unresolved actor, an unparseable body, or a body without
a `cast` key; otherwise the filtered movie and TV mappings. -/
def get_actor_credits (actor_id : Option Int)
    (resp : Option CreditsResponse) : Option Filmography :=
  match actor_id with
  | none => none
  | some _ =>
    match resp with
    | none => none
    | some r =>
      match r.cast with
      | none => none
      | some cast =>
        let data := keptCast cast
        some { movies := buildMovies
                 (data.filter (fun d => d.media_type == some "movie".toList)),
               tv := buildTv
                 (data.filter (fun d => d.media_type == some "tv".toList)) }

/-! ## Link enricher (get_links / get_imdb_link) -/

/-- Parsed body of an `external_ids` response. -/
structure ExtIdsResp where
  imdb_id : Option (List Char)
deriving DecidableEq, Repr

/-- scripts/search.py `get_imdb_link`: a non-integer ID (the absent-key
`None` in this model) or an unparseable response yields the empty
string; otherwise `data.get('imdb_id', '')`. -/
def get_imdb_link (tmdb_id : Option Int) (resp : Option ExtIdsResp) :
    Option Int × List Char :=
  match tmdb_id with
  | none => (none, [])
  | some i =>
    match resp with
    | none => (some i, [])
    | some r => (some i, r.imdb_id.getD [])

/-- scripts/search.py `get_links`: gather one `get_imdb_link` per ID;
`asyncio.gather` returns the pairs in input order. -/
def get_links (media : List (Option Int))
    (net : Option Int → Option ExtIdsResp) : List (Option Int × List Char) :=
  media.map (fun i => get_imdb_link i (net i))

/-! ## Intersection engine (handle_search) -/

/-- Everything `handle_search` consumes for one actor: the query and
that actor's upstream search, paging and credits responses. -/
structure ActorInput where
  query : List Char
  searchResp : Option SearchResponse
  pages : Int → PageResp
  creditsResp : Option CreditsResponse

/-- One assembled shared credit; movies carry no `episodes` key. -/
structure Media where
  title : Option (List Char)
  year : List Char
  characters : List (List Char)
  episodes : Option (List Int)
  link : List Char
deriving DecidableEq, Repr

/-- Comparison used by `sorted(media, key=year, reverse=True)`. -/
def yearGe (a b : Media) : Bool := strLe b.year a.year

/-- Python `dict.fromkeys` key list: first occurrences, in order. -/
def pyDedup : List (Option Int) → List (Option Int)
  | [] => []
  | x :: xs => x :: (pyDedup xs).filter (fun y => !(y == x))

/-- The empty filmography (never consulted: guarded by the `None` check). -/
def emptyFilmography : Filmography := { movies := [], tv := [] }

/-- Junk movie record for Python's total `dict[key]` access on a key
that is guaranteed present. -/
def noMovieRec : MovieRecord := { title := none, year := [], character := [] }

/-- Junk TV record, as `noMovieRec`. -/
def noTvRec : TvRecord :=
  { title := none, year := [], character := [], episodes := 0 }

/-- Intersection of the per-actor key sets.  CPython iterates the
intersection set in an unspecified hash order; the model fixes the
order of the first filmography's keys (keys of a dict are unique, so
this is one valid iteration order). -/
def sharedKeys (sets : List (List (Option Int))) : List (Option Int) :=
  (sets.headD []).filter (fun k => sets.all (fun ks => ks.contains k))

/-- Shared movie IDs of a list of filmographies. -/
def sharedMovieIds (fgs : List Filmography) : List (Option Int) :=
  sharedKeys (fgs.map (fun f => f.movies.map (fun p => p.1)))

/-- Shared TV IDs of a list of filmographies. -/
def sharedTvIds (fgs : List Filmography) : List (Option Int) :=
  sharedKeys (fgs.map (fun f => f.tv.map (fun p => p.1)))

/-- One shared-movie dictionary: title and year from the first actor's
record, character per actor in input order, link from the batch. -/
def mkMovieMedia (fgs : List Filmography)
    (links : List (Option Int × List Char)) (mid : Option Int) : Media :=
  { title := (((fgs.headD emptyFilmography).movies.lookup mid).getD noMovieRec).title,
    year := (((fgs.headD emptyFilmography).movies.lookup mid).getD noMovieRec).year,
    characters := fgs.map (fun f => ((f.movies.lookup mid).getD noMovieRec).character),
    episodes := none,
    link := (links.lookup mid).getD [] }

/-- One shared-TV dictionary, additionally carrying episode counts. -/
def mkTvMedia (fgs : List Filmography)
    (links : List (Option Int × List Char)) (mid : Option Int) : Media :=
  { title := (((fgs.headD emptyFilmography).tv.lookup mid).getD noTvRec).title,
    year := (((fgs.headD emptyFilmography).tv.lookup mid).getD noTvRec).year,
    characters := fgs.map (fun f => ((f.tv.lookup mid).getD noTvRec).character),
    episodes := some (fgs.map (fun f => ((f.tv.lookup mid).getD noTvRec).episodes)),
    link := (links.lookup mid).getD [] }

/-- The shared-movie list `handle_search` builds (empty when there are
no shared movies, in which case no link batch is issued). -/
def buildSharedMovies (fgs : List Filmography)
    (movieNet : Option Int → Option ExtIdsResp) : List Media :=
  let sm := sharedMovieIds fgs
  if sm.isEmpty then []
  else sm.map (mkMovieMedia fgs (get_links sm movieNet))

/-- The shared-TV list `handle_search` builds. -/
def buildSharedTv (fgs : List Filmography)
    (tvNet : Option Int → Option ExtIdsResp) : List Media :=
  let st := sharedTvIds fgs
  if st.isEmpty then []
  else st.map (mkTvMedia fgs (get_links st tvNet))

/-- Details of every requested actor (`map(get_actor_details, actors)`,
which propagates the first exception). -/
def resolvedDetails (inputs : List ActorInput) :
    Except PyErr (List ActorDetails) :=
  collectExcept (inputs.map
    (fun i => get_actor_details i.query i.searchResp i.pages))

/-- Credits of every actor (`map(get_actor_credits, actor_ids)`), each
against its own upstream credits response. -/
def creditsFor (inputs : List ActorInput) (details : List ActorDetails) :
    List (Option Filmography) :=
  (inputs.zip details).map (fun p => get_actor_credits p.2.id p.1.creditsResp)

/-- scripts/search.py `handle_search` over the per-actor inputs and the
two `external_ids` environments. -/
def handle_search (inputs : List ActorInput)
    (movieNet tvNet : Option Int → Option ExtIdsResp) :
    Except PyErr (Option (List Media) × List ActorDetails) :=
  match resolvedDetails inputs with
  | .error e => .error e
  | .ok actor_details =>
    let actor_ids := actor_details.map (fun d => d.id)
    let actor_credits := creditsFor inputs actor_details
    if actor_ids.contains none || actor_credits.contains none then
      .ok (none, actor_details)
    else if (pyDedup actor_ids).length < 2 then .ok (none, actor_details)
    else
      let fgs := actor_credits.map (fun c => c.getD emptyFilmography)
      if (sharedMovieIds fgs).isEmpty ∧ (sharedTvIds fgs).isEmpty then
        .ok (none, actor_details)
      else
        .ok (some (pySorted yearGe
              (buildSharedMovies fgs movieNet ++ buildSharedTv fgs tvNet)),
             actor_details)

/-! ## Dictionary lemmas -/

theorem lookup_dictInsert {β : Type} (k k' : Option Int) (v : β)
    (m : List (Option Int × β)) :
    (dictInsert k' v m).lookup k = if k = k' then some v else m.lookup k := by
  induction m with
  | nil =>
    by_cases hk : k = k'
    · simp [dictInsert, List.lookup, hk]
    · have hk' : (k == k') = false := by simpa using hk
      simp [dictInsert, List.lookup, hk, hk']
  | cons hd tl ih =>
    obtain ⟨a, b⟩ := hd
    by_cases hak : a = k'
    · subst hak
      by_cases hk : k = a
      · have hk' : (k == a) = true := by simpa using hk
        simp [dictInsert, List.lookup, hk, hk']
      · have hk' : (k == a) = false := by simpa using hk
        simp [dictInsert, List.lookup, hk, hk']
    · have hak' : (a == k') = false := by simpa using hak
      by_cases hk : k = a
      · have hk2 : (k == a) = true := by simpa using hk
        have h3 : ¬ k = k' := by
          intro h
          exact hak (by rw [← hk, h])
        have h4 : (k == k') = false := by simpa using h3
        simp [dictInsert, hak', List.lookup, hk2, h3, h4]
      · have hk' : (k == a) = false := by simpa using hk
        simp [dictInsert, hak', List.lookup, hk', ih]

theorem mem_dictInsert {β : Type} (p : Option Int × β) (k : Option Int)
    (v : β) (m : List (Option Int × β)) (h : p ∈ dictInsert k v m) :
    p = (k, v) ∨ p ∈ m := by
  induction m with
  | nil => simpa [dictInsert] using h
  | cons hd tl ih =>
    obtain ⟨a, b⟩ := hd
    by_cases hak : a = k
    · subst hak
      simp only [dictInsert, beq_self_eq_true, if_true] at h
      rcases List.mem_cons.mp h with h | h
      · exact Or.inl h
      · exact Or.inr (List.mem_cons_of_mem _ h)
    · have hak' : (a == k) = false := by simpa using hak
      simp only [dictInsert, hak', Bool.false_eq_true, if_false] at h
      rcases List.mem_cons.mp h with h | h
      · exact Or.inr (h ▸ List.mem_cons_self (a, b) tl)
      · rcases ih h with h' | h'
        · exact Or.inl h'
        · exact Or.inr (List.mem_cons_of_mem _ h')

theorem buildMovies_go_lookup (l : List CastEntry) :
    ∀ (acc : List (Option Int × MovieRecord)) (k : Option Int),
    (l.foldl (fun m e => dictInsert e.id (mkMovieRec e) m) acc).lookup k =
      ((l.reverse.find? (fun e => e.id == k)).map mkMovieRec).or (acc.lookup k) := by
  induction l with
  | nil => intro acc k; simp
  | cons e t ih =>
    intro acc k
    simp only [List.foldl_cons, List.reverse_cons, List.find?_append, ih]
    cases hfind : t.reverse.find? (fun e => e.id == k) with
    | some e' => simp
    | none =>
      simp only [Option.none_or]
      by_cases hk : e.id = k
      · have hk' : (e.id == k) = true := by simpa using hk
        simp [List.find?, hk', lookup_dictInsert, hk.symm]
      · have hk' : (e.id == k) = false := by simpa using hk
        have hk2 : ¬ k = e.id := fun h => hk h.symm
        simp [List.find?, hk', lookup_dictInsert, hk2]

theorem buildTv_go_lookup (l : List CastEntry) :
    ∀ (acc : List (Option Int × TvRecord)) (k : Option Int),
    (l.foldl (fun m e =>
        if (m.lookup e.id).isSome then m else m ++ [(e.id, mkTvRec e)]) acc).lookup k =
      (acc.lookup k).or ((l.find? (fun e => e.id == k)).map mkTvRec) := by
  induction l with
  | nil => intro acc k; simp
  | cons e t ih =>
    intro acc k
    simp only [List.foldl_cons]
    by_cases hacc : (acc.lookup e.id).isSome
    · simp only [hacc, if_true, ih]
      cases hk : acc.lookup k with
      | some v => simp
      | none =>
        simp only [Option.none_or]
        by_cases he : e.id = k
        · subst he
          rw [hk] at hacc
          simp at hacc
        · have he' : (e.id == k) = false := by simpa using he
          simp [List.find?, he']
    · have hacc' : acc.lookup e.id = none := by
        cases h : acc.lookup e.id with
        | some v => rw [h] at hacc; simp at hacc
        | none => rfl
      simp only [hacc, Bool.false_eq_true, if_false, ih, List.lookup_append]
      by_cases he : e.id = k
      · subst he
        rw [hacc']
        have : (e.id == e.id) = true := by simp
        simp [List.find?, this, List.lookup]
      · have he' : (e.id == k) = false := by simpa using he
        have he2 : (k == e.id) = false := by
          simp only [beq_eq_false_iff_ne, ne_eq]
          exact fun h => he h.symm
        simp [List.find?, he', List.lookup, he2]

/-- C10: in the Credit Fetcher's movie mapping, built by a dict
comprehension, the record stored under any provider ID comes from the
last cast entry carrying that ID (later duplicates overwrite). -/
theorem movie_mapping_last_wins (l : List CastEntry) (k : Option Int) :
    (buildMovies l).lookup k =
      (l.reverse.find? (fun e => e.id == k)).map mkMovieRec := by
  simpa using buildMovies_go_lookup l [] k

/-- C7: in the Credit Fetcher's TV mapping, built by `setdefault`, the
record stored under any provider ID comes from the first cast entry
carrying that ID (subsequent occurrences are ignored). -/
theorem tv_mapping_first_wins (l : List CastEntry) (k : Option Int) :
    (buildTv l).lookup k = (l.find? (fun e => e.id == k)).map mkTvRec := by
  simpa [buildTv] using buildTv_go_lookup l [] k

theorem mem_buildMovies_go (l : List CastEntry) :
    ∀ (acc : List (Option Int × MovieRecord)) (p : Option Int × MovieRecord),
    p ∈ l.foldl (fun m e => dictInsert e.id (mkMovieRec e) m) acc →
    p ∈ acc ∨ ∃ e ∈ l, p = (e.id, mkMovieRec e) := by
  induction l with
  | nil => intro acc p h; exact Or.inl h
  | cons e t ih =>
    intro acc p h
    rcases ih _ p h with h' | ⟨e', he', hp⟩
    · rcases mem_dictInsert p e.id (mkMovieRec e) acc h' with h2 | h2
      · exact Or.inr ⟨e, List.mem_cons_self e t, h2⟩
      · exact Or.inl h2
    · exact Or.inr ⟨e', List.mem_cons_of_mem e he', hp⟩

/-- Concrete cast entry whose release-date field is present but empty. -/
def emptyDateEntry : CastEntry :=
  { media_type := some "movie".toList, id := some 7,
    title := some "X".toList, name := none,
    character := some "Bob".toList, release_date := some [],
    first_air_date := none, episode_count := none }

/-- C4 counterexample: a kept movie cast entry whose release-date field
is present but empty is recorded with year `""`, not the 4-character
sentinel `"n.d."` the claim requires for an empty field. -/
theorem movie_year_empty_date_not_nd :
    (get_actor_credits (some 1) (some { cast := some [emptyDateEntry] })).map
        (fun fg => (fg.movies.lookup (some 7)).map (fun r => r.year)) =
      some (some []) ∧ ([] : List Char) ≠ ndYear := by
  constructor
  · decide
  · decide

/-- C4 amended: every record of the movie mapping comes from a kept cast
entry, with year the first 4 characters of the release-date field when
that field is present (hence the empty string when it is empty), and the
sentinel `"n.d."` exactly when the field is absent. -/
theorem movie_year_from_release_date (l : List CastEntry)
    (p : Option Int × MovieRecord) (hp : p ∈ buildMovies l) :
    ∃ e ∈ l, p = (e.id, mkMovieRec e) ∧
      (e.release_date = none → (mkMovieRec e).year = ndYear) ∧
      (∀ s, e.release_date = some s → (mkMovieRec e).year = s.take 4) := by
  rcases mem_buildMovies_go l [] p hp with h | ⟨e, he, hp'⟩
  · simp at h
  · refine ⟨e, he, hp', ?_, ?_⟩
    · intro hnone
      simp [mkMovieRec, hnone, ndYear]
    · intro s hs
      simp [mkMovieRec, hs]

/-- Witness for C4's amended theorem at a concrete mapping. -/
theorem movie_year_from_release_date_witness :
    ∃ e ∈ [emptyDateEntry],
      ((some 7 : Option Int),
        { title := some "X".toList, year := [],
          character := "Bob".toList : MovieRecord }) = (e.id, mkMovieRec e) ∧
      (e.release_date = none → (mkMovieRec e).year = ndYear) ∧
      (∀ s, e.release_date = some s → (mkMovieRec e).year = s.take 4) :=
  movie_year_from_release_date [emptyDateEntry] _ (by decide)

/-- C9: `get_links` is total and isolates per-item failures — it returns
one `(id, link)` pair per input ID in order; a non-integer ID or an
unparseable response yields the empty string, and every other ID
resolves to its looked-up external identifier. -/
theorem get_links_isolates_failures (ids : List (Option Int))
    (net : Option Int → Option ExtIdsResp) :
    (get_links ids net).map Prod.fst = ids ∧
    ∀ p ∈ get_links ids net,
      (p.1 = none → p.2 = []) ∧
      (∀ i, p.1 = some i → net (some i) = none → p.2 = []) ∧
      (∀ i r, p.1 = some i → net (some i) = some r →
        p.2 = r.imdb_id.getD []) := by
  constructor
  · simp only [get_links, List.map_map]
    have h1 : ∀ i : Option Int, (Prod.fst ∘ fun i => get_imdb_link i (net i)) i = i := by
      intro i
      cases i with
      | none => rfl
      | some v =>
        cases hnet : net (some v) <;> simp [get_imdb_link, hnet]
    calc ids.map (Prod.fst ∘ fun i => get_imdb_link i (net i))
        = ids.map id := List.map_congr_left (fun i _ => h1 i)
      _ = ids := List.map_id ids
  · intro p hp
    rcases List.mem_map.mp hp with ⟨i, hi, hpi⟩
    subst hpi
    refine ⟨?_, ?_, ?_⟩
    · intro h1
      cases i with
      | none => rfl
      | some v =>
        cases hnet : net (some v) <;> simp [get_imdb_link, hnet] at h1
    · intro j h1 h2
      cases i with
      | none => simp [get_imdb_link] at h1
      | some v =>
        cases hnet : net (some v) with
        | none => simp [get_imdb_link, hnet]
        | some r =>
          simp [get_imdb_link, hnet] at h1 ⊢
          rw [h1] at hnet
          rw [hnet] at h2
          cases h2
    · intro j r h1 h2
      cases i with
      | none => simp [get_imdb_link] at h1
      | some v =>
        cases hnet : net (some v) with
        | none =>
          simp [get_imdb_link, hnet] at h1
          rw [h1] at hnet
          rw [hnet] at h2
          cases h2
        | some r' =>
          simp [get_imdb_link, hnet] at h1 ⊢
          rw [h1] at hnet
          rw [hnet] at h2
          cases h2
          rfl

/-- Concrete ID batch: five IDs, one non-integer, one failing lookup. -/
def linkIds : List (Option Int) := [some 1, some 2, none, some 4, some 5]

/-- Concrete link environment where the lookup of ID 2 fails to parse. -/
def linkNet (i : Option Int) : Option ExtIdsResp :=
  if i == some 2 then none
  else if i == some 1 then some { imdb_id := some "tt1".toList }
  else if i == some 4 then some { imdb_id := some "tt4".toList }
  else if i == some 5 then some { imdb_id := none }
  else none

/-- Witness for C9 at a 5-element batch with one failure. -/
theorem get_links_isolates_failures_witness :
    (get_links linkIds linkNet).map Prod.fst = linkIds ∧
    ∀ p ∈ get_links linkIds linkNet,
      (p.1 = none → p.2 = []) ∧
      (∀ i, p.1 = some i → linkNet (some i) = none → p.2 = []) ∧
      (∀ i r, p.1 = some i → linkNet (some i) = some r →
        p.2 = r.imdb_id.getD []) :=
  get_links_isolates_failures linkIds linkNet

theorem mem_pyRange (lo hi p : Int) : p ∈ pyRange lo hi ↔ lo ≤ p ∧ p < hi := by
  constructor
  · intro h
    obtain ⟨k, hk, he⟩ := List.mem_map.mp h
    rw [List.mem_range] at hk
    have he' : lo + Int.ofNat k = p := he
    simp only [Int.ofNat_eq_coe] at he'
    omega
  · intro h
    refine List.mem_map.mpr ⟨(p - lo).toNat, ?_, ?_⟩
    · rw [List.mem_range]
      omega
    · have : lo + Int.ofNat (p - lo).toNat = p := by
        simp only [Int.ofNat_eq_coe]
        omega
      exact this

/-- C3 counterexample: with `total_pages = 3`, `range(2, pages)` excludes
its upper bound, so page 3 is never requested even though the claim
says pages 2 through `total_pages` are all fetched. -/
theorem page_three_never_fetched :
    (2 : Int) ∈ fetch_more_pages_range 3 ∧
      (3 : Int) ∉ fetch_more_pages_range 3 := by
  constructor
  · decide
  · decide

/-- C3 amended: the extra pages requested are exactly
`2 ≤ p < min(total_pages, 12)` — the last reported page (and the capped
12th) is excluded — so including the first page at most 11 pages are
ever fetched, which is within the claimed cap of 12; for
`total_pages = 50` exactly 11 pages are fetched in total. -/
theorem page_fan_out_capped (tp : Int) :
    (∀ p : Int, p ∈ fetch_more_pages_range tp ↔ 2 ≤ p ∧ p < min tp 12) ∧
      (fetch_more_pages_range tp).length + 1 ≤ 11 := by
  constructor
  · intro p
    rw [fetch_more_pages_range, mem_pyRange]
    constructor
    · rintro ⟨h1, h2⟩
      refine ⟨h1, ?_⟩
      by_cases h : 12 < tp
      · simp only [h, if_true] at h2
        omega
      · simp only [h, if_false] at h2
        omega
    · rintro ⟨h1, h2⟩
      refine ⟨h1, ?_⟩
      by_cases h : 12 < tp
      · simp only [h, if_true]
        omega
      · simp only [h, if_false]
        omega
  · have hlen : (fetch_more_pages_range tp).length =
        ((if 12 < tp then 12 else tp) - 2).toNat := by
      simp [fetch_more_pages_range, pyRange]
    rw [hlen]
    by_cases h : 12 < tp
    · simp only [h, if_true]
      omega
    · simp only [h, if_false]
      omega

/-- Witness for C3's amended theorem at `total_pages = 50`: page 11 is
requested, pages 12 and 50 are not, and 11 pages are fetched in total. -/
theorem page_fan_out_capped_witness :
    (11 : Int) ∈ fetch_more_pages_range 50 ∧
      (12 : Int) ∉ fetch_more_pages_range 50 ∧
      (50 : Int) ∉ fetch_more_pages_range 50 ∧
      (fetch_more_pages_range 50).length + 1 = 11 := by
  have h := page_fan_out_capped 50
  refine ⟨(h.1 11).mpr (by decide), ?_, ?_, by decide⟩
  · intro hmem
    have := (h.1 12).mp hmem
    omega
  · intro hmem
    have := (h.1 50).mp hmem
    omega

/-- C6: whenever the two inputs resolve to the same non-`None` actor ID,
`handle_search` returns an absent media list together with both actors'
details, regardless of either filmography. -/
theorem same_actor_yields_no_media (i1 i2 : ActorInput)
    (movieNet tvNet : Option Int → Option ExtIdsResp)
    (d1 d2 : ActorDetails) (n : Int)
    (h1 : get_actor_details i1.query i1.searchResp i1.pages = .ok d1)
    (h2 : get_actor_details i2.query i2.searchResp i2.pages = .ok d2)
    (hid1 : d1.id = some n) (hid2 : d2.id = some n) :
    handle_search [i1, i2] movieNet tvNet = .ok (none, [d1, d2]) := by
  have hres : resolvedDetails [i1, i2] = .ok [d1, d2] := by
    simp [resolvedDetails, collectExcept, h1, h2, Except.map]
  have hidmap : [d1, d2].map (fun d => d.id) = [some n, some n] := by
    simp [hid1, hid2]
  simp only [handle_search, hres, hidmap]
  by_cases hc : (creditsFor [i1, i2] [d1, d2]).contains none = true
  · have hcond : (([some n, some n] : List (Option Int)).contains none ||
        (creditsFor [i1, i2] [d1, d2]).contains none) = true := by
      rw [hc]
      simp
    rw [if_pos hcond]
  · have hc' : (creditsFor [i1, i2] [d1, d2]).contains none = false := by
      cases h : (creditsFor [i1, i2] [d1, d2]).contains none with
      | true => exact absurd h hc
      | false => rfl
    have hcond : ¬ ((([some n, some n] : List (Option Int)).contains none ||
        (creditsFor [i1, i2] [d1, d2]).contains none) = true) := by
      rw [hc']
      simp
    rw [if_neg hcond]
    have hdedup : (pyDedup [some n, some n]).length < 2 := by
      simp [pyDedup]
    rw [if_pos hdedup]

/-- Candidate used by the concrete C6 scenario. -/
def annEntry : PersonEntry :=
  { id := some 5, name := some "ann".toList, popularity := some 3,
    known_for_department := some "Acting".toList, profile_path := some none }

/-- Concrete actor input that resolves to ID 5. -/
def annInput : ActorInput :=
  { query := "ann".toList,
    searchResp := some { results := some [annEntry], total_pages := some 1 },
    pages := fun _ => .badJson,
    creditsResp := some { cast := some [] } }

/-- The details `annInput` resolves to. -/
def annDetails : ActorDetails :=
  { id := some 5, name := "ann".toList, img := some [] }

/-- Witness for C6: the same person entered twice gives no media list. -/
theorem same_actor_yields_no_media_witness :
    handle_search [annInput, annInput] (fun _ => none) (fun _ => none) =
      .ok (none, [annDetails, annDetails]) :=
  same_actor_yields_no_media annInput annInput (fun _ => none) (fun _ => none)
    annDetails annDetails 5 rfl rfl rfl rfl

/-! ## Self-match lemmas for the fuzzy matcher -/

theorem isPopular_short (b : List Char) (hb : b.length < 200) (c : Char) :
    isPopular b c = false := by
  have h : ¬ (200 ≤ b.length) := by omega
  simp [isPopular, h]

theorem sameAt_self (s : List Char) (i : Nat) (hi : i < s.length) :
    sameAt s s i i = true := by
  have h : s.get? i = some (s.get ⟨i, hi⟩) := List.get?_eq_get hi
  rw [sameAt, h]
  simp

theorem kmat_diag (s : List Char) (hs : s.length < 200) :
    ∀ i, i < s.length → kmat s s 0 0 i i = i + 1 := by
  intro i
  induction i with
  | zero =>
    intro h
    simp [kmat, sameAt_self s 0 h, isPopular_short s hs]
  | succ n ih =>
    intro h
    rw [kmat]
    simp only [sameAt_self s (n + 1) h, isPopular_short s hs]
    simp only [not_true, Bool.false_eq_true, and_false, not_false_iff]
    have h1 : ¬ (n + 1 < 0 ∨ n + 1 < 0) := by omega
    have h2 : ¬ (n + 1 = 0 ∨ n + 1 = 0) := by omega
    rw [if_neg (by simp), if_neg h1, if_neg h2]
    have : n + 1 - 1 = n := by omega
    rw [this, ih (by omega)]

theorem kmat_le_fst (a b : List Char) (alo blo : Nat) :
    ∀ i j, kmat a b alo blo i j ≤ i + 1 := by
  intro i
  induction i with
  | zero =>
    intro j
    rw [kmat]
    split
    · omega
    · split <;> omega
  | succ n ih =>
    intro j
    rw [kmat]
    split
    · omega
    · split
      · omega
      · split
        · omega
        · have := ih (j - 1)
          omega

theorem kmat_le_snd (a b : List Char) (alo blo : Nat) :
    ∀ i j, kmat a b alo blo i j ≤ j + 1 := by
  intro i
  induction i with
  | zero =>
    intro j
    rw [kmat]
    split
    · omega
    · split <;> omega
  | succ n ih =>
    intro j
    rw [kmat]
    split
    · omega
    · split
      · omega
      · split
        · omega
        · rename_i hcond hlt heq
          have hblo : blo < j := by
            rw [not_or] at hlt heq
            omega
          have := ih (j - 1)
          omega

theorem scan_snd (a b : List Char) (alo blo : Nat) :
    ∀ (L : List (Nat × Nat)) (st : Nat × Nat × Nat),
    (L.foldl (flmStep a b alo blo) st).2.2 =
      L.foldl (fun m p => max m (kmat a b alo blo p.1 p.2)) st.2.2 := by
  intro L
  induction L with
  | nil => intro st; rfl
  | cons p t ih =>
    intro st
    simp only [List.foldl_cons]
    rw [ih]
    congr 1
    by_cases hk : st.2.2 < kmat a b alo blo p.1 p.2
    · simp only [flmStep, if_pos hk]
      omega
    · simp only [flmStep, if_neg hk]
      omega

theorem foldl_max_init_le (f : Nat × Nat → Nat) :
    ∀ (L : List (Nat × Nat)) (st : Nat),
    st ≤ L.foldl (fun m p => max m (f p)) st := by
  intro L
  induction L with
  | nil => intro st; exact Nat.le_refl st
  | cons p t ih =>
    intro st
    calc st ≤ max st (f p) := Nat.le_max_left _ _
      _ ≤ t.foldl (fun m p => max m (f p)) (max st (f p)) := ih _

theorem foldl_max_ge_mem (f : Nat × Nat → Nat) :
    ∀ (L : List (Nat × Nat)) (st : Nat) (p : Nat × Nat), p ∈ L →
    f p ≤ L.foldl (fun m p => max m (f p)) st := by
  intro L
  induction L with
  | nil => intro st p hp; simp at hp
  | cons q t ih =>
    intro st p hp
    rcases List.mem_cons.mp hp with h | h
    · subst h
      calc f p ≤ max st (f p) := Nat.le_max_right _ _
        _ ≤ t.foldl (fun m q => max m (f q)) (max st (f p)) :=
          foldl_max_init_le f t _
    · exact ih _ p h

theorem scan_state (s : List Char) :
    ∀ (L : List (Nat × Nat)) (st : Nat × Nat × Nat),
    (∀ p ∈ L, p.1 < s.length ∧ p.2 < s.length) →
    st.2.2 ≤ s.length → (st.2.2 = s.length → st = (0, 0, s.length)) →
    (L.foldl (flmStep s s 0 0) st).2.2 ≤ s.length ∧
      ((L.foldl (flmStep s s 0 0) st).2.2 = s.length →
        L.foldl (flmStep s s 0 0) st = (0, 0, s.length)) := by
  intro L
  induction L with
  | nil => intro st _ hb hi; exact ⟨hb, hi⟩
  | cons p t ih =>
    intro st hmem hb hi
    simp only [List.foldl_cons]
    have hp := hmem p (List.mem_cons_self p t)
    apply ih
    · intro p' hp'
      exact hmem p' (List.mem_cons_of_mem _ hp')
    · by_cases hk : st.2.2 < kmat s s 0 0 p.1 p.2
      · simp only [flmStep, if_pos hk]
        have := kmat_le_fst s s 0 0 p.1 p.2
        omega
      · simp only [flmStep, if_neg hk]
        exact hb
    · by_cases hk : st.2.2 < kmat s s 0 0 p.1 p.2
      · simp only [flmStep, if_pos hk]
        intro hkn
        have h1 := kmat_le_fst s s 0 0 p.1 p.2
        have h2 := kmat_le_snd s s 0 0 p.1 p.2
        have e1 : p.1 + 1 - kmat s s 0 0 p.1 p.2 = 0 := by omega
        have e2 : p.2 + 1 - kmat s s 0 0 p.1 p.2 = 0 := by omega
        rw [e1, e2, hkn]
      · simp only [flmStep, if_neg hk]
        exact hi

theorem mem_allPairs_sq (n : Nat) (p : Nat × Nat) :
    p ∈ allPairs 0 n 0 n ↔ p.1 < n ∧ p.2 < n := by
  obtain ⟨i, j⟩ := p
  simp only [allPairs, Nat.sub_zero, List.mem_flatMap, List.mem_map,
    List.mem_range'_1]
  constructor
  · rintro ⟨a, ⟨_, ha⟩, b, ⟨_, hb⟩, he⟩
    obtain ⟨rfl, rfl⟩ := Prod.mk.injEq .. ▸ he
    constructor <;> omega
  · rintro ⟨hi, hj⟩
    exact ⟨i, ⟨by omega, by omega⟩, j, ⟨by omega, by omega⟩, rfl⟩

theorem flmScan_self (s : List Char) (h1 : 1 ≤ s.length)
    (h2 : s.length < 200) : flmScan s s 0 s.length 0 s.length =
      (0, 0, s.length) := by
  have hmem : ∀ p ∈ allPairs 0 s.length 0 s.length,
      p.1 < s.length ∧ p.2 < s.length := by
    intro p hp
    exact (mem_allPairs_sq s.length p).mp hp
  have e0 : ((0, 0, 0) : Nat × Nat × Nat).2.2 = 0 := rfl
  have hinv := scan_state s (allPairs 0 s.length 0 s.length) (0, 0, 0) hmem
    (by rw [e0]; omega)
    (by
      rw [e0]
      intro h0
      rw [← h0])
  have hge : s.length ≤ (List.foldl (flmStep s s 0 0)
      (0, 0, 0) (allPairs 0 s.length 0 s.length)).2.2 := by
    rw [scan_snd, e0]
    have hdiag := kmat_diag s h2 (s.length - 1) (by omega)
    have hmm : ((s.length - 1, s.length - 1) : Nat × Nat) ∈
        allPairs 0 s.length 0 s.length := by
      rw [mem_allPairs_sq]
      constructor <;> omega
    have hf := foldl_max_ge_mem (fun p => kmat s s 0 0 p.1 p.2)
      (allPairs 0 s.length 0 s.length) 0 _ hmm
    simp only at hf hdiag
    omega
  rw [flmScan]
  exact hinv.2 (by omega)

theorem findLongestMatch_self (s : List Char) (h1 : 1 ≤ s.length)
    (h2 : s.length < 200) :
    findLongestMatch s s 0 s.length 0 s.length = (0, 0, s.length) := by
  rw [findLongestMatch, flmScan_self s h1 h2]
  have hdown : extendDown s s 0 0 (0 + 0) (0, 0, s.length) =
      (0, 0, s.length) := rfl
  rw [hdown]
  obtain ⟨m, hm⟩ : ∃ m, s.length + s.length = m + 1 := ⟨s.length + s.length - 1, by omega⟩
  rw [hm, extendUp]
  have : ¬ (0 + s.length < s.length ∧ 0 + s.length < s.length ∧
      sameAt s s (0 + s.length) (0 + s.length) = true) := by
    omega
  rw [if_neg this]

theorem getMatchingBlocks_self (s : List Char) (h1 : 1 ≤ s.length)
    (h2 : s.length < 200) :
    getMatchingBlocks s s = [(0, 0, s.length), (s.length, s.length, 0)] := by
  rw [getMatchingBlocks]
  obtain ⟨m, hm⟩ : ∃ m, s.length + s.length + 1 = m + 1 :=
    ⟨s.length + s.length, rfl⟩
  rw [hm, gmbRec]
  simp only [findLongestMatch_self s h1 h2]
  have hne : ¬ ((0, 0, s.length) : Nat × Nat × Nat).2.2 = 0 := by
    show ¬ s.length = 0
    omega
  rw [if_neg hne]
  have hleft : ¬ (0 < ((0, 0, s.length) : Nat × Nat × Nat).1 ∧
      0 < ((0, 0, s.length) : Nat × Nat × Nat).2.1) := by
    show ¬ ((0 : Nat) < 0 ∧ (0 : Nat) < 0)
    omega
  rw [if_neg hleft]
  have hright : ¬ (((0, 0, s.length) : Nat × Nat × Nat).1 +
        ((0, 0, s.length) : Nat × Nat × Nat).2.2 < s.length ∧
      ((0, 0, s.length) : Nat × Nat × Nat).2.1 +
        ((0, 0, s.length) : Nat × Nat × Nat).2.2 < s.length) := by
    show ¬ (0 + s.length < s.length ∧ 0 + s.length < s.length)
    omega
  rw [if_neg hright]
  simp only [List.nil_append, List.append_nil]
  rw [mergeAdjacent]
  have hadj : 0 + 0 = ((0, 0, s.length) : Nat × Nat × Nat).1 ∧
      0 + 0 = ((0, 0, s.length) : Nat × Nat × Nat).2.1 := by
    exact ⟨rfl, rfl⟩
  rw [if_pos hadj, mergeAdjacent]
  rw [if_pos (by omega : 0 + s.length ≠ 0)]
  simp

theorem sumSizes_self (s : List Char) (h1 : 1 ≤ s.length)
    (h2 : s.length < 200) :
    sumSizes (getMatchingBlocks s s) = s.length := by
  rw [getMatchingBlocks_self s h1 h2]
  simp [sumSizes]

theorem pRatio_self (s : List Char) (hne : s ≠ []) (h2 : s.length < 200) :
    pRatio s s = 100 := by
  have h1 : 1 ≤ s.length := by
    cases s with
    | nil => exact absurd rfl hne
    | cons a t => simp
  have hemp : s.isEmpty = false := by
    cases s with
    | nil => exact absurd rfl hne
    | cons a t => rfl
  rw [pRatio]
  rw [if_neg (by simp [hemp])]
  simp only [Nat.le_refl, if_pos]
  rw [getMatchingBlocks_self s h1 h2]
  simp only [List.map_cons, List.map_nil]
  have hsub1 : ((s.drop (0 - 0)).take s.length) = s := by
    simp
  have hsub2 : ((s.drop (s.length - s.length)).take s.length) = s := by
    simp
  rw [hsub1, hsub2]
  rw [sumSizes_self s h1 h2]
  have hsc : ratioScore s.length (s.length + s.length) = 100 := by
    rw [ratioScore, if_pos (by omega)]
  rw [hsc]
  rfl

/-! ## Tokenisation lemmas -/

theorem pySplitChar_ne_nil (c : Char) (l : List Char) :
    pySplitChar c l ≠ [] := by
  cases l with
  | nil => simp [pySplitChar]
  | cons x xs =>
    rw [pySplitChar]
    by_cases hx : x = c
    · simp [hx]
    · rw [if_neg hx]
      cases pySplitChar c xs <;> simp

theorem pySplitChar_singleton (c : Char) :
    ∀ l : List Char, (pySplitChar c l).length = 1 → pySplitChar c l = [l] := by
  intro l
  induction l with
  | nil => intro _; rfl
  | cons x xs ih =>
    intro hlen
    rw [pySplitChar] at hlen ⊢
    by_cases hx : x = c
    · rw [if_pos hx] at hlen
      have := pySplitChar_ne_nil c xs
      simp only [List.length_cons] at hlen
      have hz : (pySplitChar c xs).length = 0 := by omega
      rw [List.length_eq_zero] at hz
      exact absurd hz this
    · rw [if_neg hx] at hlen ⊢
      cases hsp : pySplitChar c xs with
      | nil => exact absurd hsp (pySplitChar_ne_nil c xs)
      | cons t ts =>
        rw [hsp] at hlen
        simp only [List.length_cons] at hlen
        have hts : ts = [] := by
          cases ts with
          | nil => rfl
          | cons _ _ => simp at hlen
        subst hts
        have := ih (by rw [hsp]; rfl)
        rw [hsp] at this
        have ht : t = xs := by
          injection this with h1 _
        subst ht
        rfl

theorem pySplitChar_head_ne_nil (c x : Char) (xs : List Char) (hx : x ≠ c) :
    (pySplitChar c (x :: xs)).headD [] ≠ [] := by
  rw [pySplitChar, if_neg hx]
  cases pySplitChar c xs <;> simp

theorem getLastD_of_ne_nil {α : Type} (l : List α) (d d' : α) (h : l ≠ []) :
    l.getLastD d = l.getLastD d' := by
  cases l with
  | nil => exact absurd rfl h
  | cons a t =>
    rw [List.getLastD_cons, List.getLastD_cons]

theorem pySplitChar_last_ne_nil (c : Char) :
    ∀ (l : List Char), (∀ z, l.getLast? = some z → z ≠ c) → l ≠ [] →
    (pySplitChar c l).getLastD [] ≠ [] := by
  intro l
  induction l with
  | nil => intro _ h; exact absurd rfl h
  | cons x xs ih =>
    intro hlast _
    cases hxs : xs with
    | nil =>
      subst hxs
      have hx : x ≠ c := hlast x (by simp)
      rw [pySplitChar, if_neg hx]
      simp [pySplitChar]
    | cons y ys =>
      subst hxs
      have hlast' : ∀ z, (y :: ys).getLast? = some z → z ≠ c := by
        intro z hz
        exact hlast z (by rw [List.getLast?_cons_cons]; exact hz)
      have ihr := ih hlast' (by simp)
      rw [pySplitChar]
      by_cases hx : x = c
      · rw [if_pos hx, List.getLastD_cons]
        exact ihr
      · rw [if_neg hx]
        cases hsp : pySplitChar c (y :: ys) with
        | nil => exact absurd hsp (pySplitChar_ne_nil c (y :: ys))
        | cons t ts =>
          rw [hsp] at ihr
          cases hts : ts with
          | nil =>
            subst hts
            simp
          | cons u us =>
            subst hts
            rw [List.getLastD_cons, List.getLastD_cons]
            rw [List.getLastD_cons, List.getLastD_cons] at ihr
            exact ihr

theorem pySplitChar_token_length (c : Char) :
    ∀ (l : List Char) (t : List Char), t ∈ pySplitChar c l →
    t.length ≤ l.length := by
  intro l
  induction l with
  | nil =>
    intro t ht
    simp [pySplitChar] at ht
    simp [ht]
  | cons x xs ih =>
    intro t ht
    rw [pySplitChar] at ht
    by_cases hx : x = c
    · rw [if_pos hx] at ht
      rcases List.mem_cons.mp ht with h | h
      · simp [h]
      · have := ih t h
        simp only [List.length_cons]
        omega
    · rw [if_neg hx] at ht
      cases hsp : pySplitChar c xs with
      | nil => exact absurd hsp (pySplitChar_ne_nil c xs)
      | cons u us =>
        rw [hsp] at ht
        rcases List.mem_cons.mp ht with h | h
        · subst h
          have := ih u (by rw [hsp]; exact List.mem_cons_self u us)
          simp only [List.length_cons]
          omega
        · have := ih t (by rw [hsp]; exact List.mem_cons_of_mem u h)
          simp only [List.length_cons]
          omega

theorem headD_mem {α : Type} (l : List α) (d : α) (h : l ≠ []) :
    l.headD d ∈ l := by
  cases l with
  | nil => exact absurd rfl h
  | cons a t => simp

theorem getLastD_mem {α : Type} :
    ∀ (l : List α) (d : α), l ≠ [] → l.getLastD d ∈ l := by
  intro l
  induction l with
  | nil => intro d h; exact absurd rfl h
  | cons a t ih =>
    intro d _
    rw [List.getLastD_cons]
    cases ht : t with
    | nil =>
      subst ht
      simp [List.getLastD]
    | cons b u =>
      subst ht
      exact List.mem_cons_of_mem a (ih a (by simp))

/-! ## Trimmed-string lemmas -/

theorem trimmed_dropWhile (q : List Char) (hq : pyStrip q = q) :
    q.dropWhile Char.isWhitespace = q := by
  have hsuf1 : (q.dropWhile Char.isWhitespace) <:+ q :=
    List.dropWhile_suffix Char.isWhitespace
  have hl1 : (q.dropWhile Char.isWhitespace).length ≤ q.length :=
    hsuf1.length_le
  have hl2 : ((q.dropWhile Char.isWhitespace).reverse.dropWhile
      Char.isWhitespace).length ≤ (q.dropWhile Char.isWhitespace).length := by
    have := (List.dropWhile_suffix (l := (q.dropWhile Char.isWhitespace).reverse)
      Char.isWhitespace).length_le
    simpa using this
  have hlq := congrArg List.length hq
  rw [pyStrip] at hlq
  simp only [List.length_reverse] at hlq
  exact hsuf1.eq_of_length (by omega)

theorem trimmed_rev (q : List Char) (hq : pyStrip q = q) :
    q.reverse.dropWhile Char.isWhitespace = q.reverse := by
  have h1 := trimmed_dropWhile q hq
  rw [pyStrip, h1] at hq
  have h2 := congrArg List.reverse hq
  simpa using h2

theorem trimmed_head (q : List Char) (hq : pyStrip q = q) :
    ∀ z, q.head? = some z → ¬ z.isWhitespace = true := by
  intro z hz
  cases q with
  | nil => simp at hz
  | cons x xs =>
    have hzx : z = x := by
      simp only [List.head?_cons, Option.some.injEq] at hz
      exact hz.symm
    subst hzx
    intro hws
    have h1 := trimmed_dropWhile (z :: xs) hq
    rw [List.dropWhile_cons_of_pos hws] at h1
    have h2 : (xs.dropWhile Char.isWhitespace).length ≤ xs.length :=
      (List.dropWhile_suffix Char.isWhitespace).length_le
    have h3 := congrArg List.length h1
    simp only [List.length_cons] at h3
    omega

theorem trimmed_last (q : List Char) (hq : pyStrip q = q) :
    ∀ z, q.getLast? = some z → ¬ z.isWhitespace = true := by
  intro z hz
  have h2 := trimmed_rev q hq
  have hrev : q.reverse.head? = some z := by
    rw [List.head?_reverse]
    exact hz
  cases hr : q.reverse with
  | nil =>
    rw [hr] at hrev
    simp at hrev
  | cons a t =>
    have hza : z = a := by
      rw [hr] at hrev
      simp only [List.head?_cons, Option.some.injEq] at hrev
      exact hrev.symm
    subst hza
    intro hws
    rw [hr, List.dropWhile_cons_of_pos hws] at h2
    have h3 : (t.dropWhile Char.isWhitespace).length ≤ t.length :=
      (List.dropWhile_suffix Char.isWhitespace).length_le
    have h4 := congrArg List.length h2
    simp only [List.length_cons] at h4
    omega

theorem char_ofNat_toNat (m : Nat) (h : m < 55296) :
    (Char.ofNat m).toNat = m := by
  have hv : m.isValidChar := Or.inl h
  rw [Char.ofNat, dif_pos hv]
  rfl

theorem toLower_ne_space (c : Char) (h : ¬ c.isWhitespace = true) :
    Char.toLower c ≠ ' ' := by
  intro he
  simp only [Char.toLower] at he
  by_cases hr : c.toNat ≥ 65 ∧ c.toNat ≤ 90
  · rw [if_pos hr] at he
    have h2 := congrArg Char.toNat he
    rw [char_ofNat_toNat (c.toNat + 32) (by omega)] at h2
    have h3 : (' ' : Char).toNat = 32 := by decide
    omega
  · rw [if_neg hr] at he
    subst he
    exact h (by decide)

/-- C2 counterexample: the query `" john smith"` has two
whitespace-separated tokens, yet its self-match score is 100, not 200 —
the query side is stripped before splitting on `' '` but the candidate
side is not, so the candidate's first token is empty. -/
theorem untrimmed_self_match_not_200 :
    (pySplitWs " john smith".toList).length = 2 ∧
      match_name " john smith".toList " john smith".toList = 100 := by
  constructor
  · decide
  · decide

/-- C2 amended: the self-match score is 200 for every multi-token query
with no leading or trailing whitespace and fewer than 200 characters
(longer queries can trip difflib's autojunk heuristic). -/
theorem trimmed_self_match_200 (q : List Char) (hstrip : pyStrip q = q)
    (htok : 2 ≤ (pySplitWs q).length) (hlen : q.length < 200) :
    match_name q q = 200 := by
  have hne : q ≠ [] := by
    intro h
    subst h
    have h0 : pySplitWs ([] : List Char) = [] := by decide
    rw [h0] at htok
    simp at htok
  have hllen : (pyLower q).length = q.length := by simp [pyLower]
  have hlne : pyLower q ≠ [] := by
    intro h
    apply hne
    have := congrArg List.length h
    rw [hllen] at this
    exact List.length_eq_zero.mp this
  simp only [match_name, hstrip]
  by_cases hE : (pySplitChar ' ' (pyLower q)).length = 1
  · rw [if_pos hE]
    have hEe := pySplitChar_singleton ' ' (pyLower q) hE
    rw [hEe]
    have h100 := pRatio_self (pyLower q) hlne (by omega)
    simp [h100]
  · rw [if_neg hE]
    have hhead : (pySplitChar ' ' (pyLower q)).headD [] ≠ [] := by
      cases hpl : pyLower q with
      | nil => exact absurd hpl hlne
      | cons y ys =>
        have hy : (pyLower q).head? = some y := by rw [hpl]; rfl
        rw [pyLower, List.head?_map] at hy
        cases hgz : q.head? with
        | none =>
          rw [hgz] at hy
          simp at hy
        | some z =>
          rw [hgz] at hy
          simp only [Option.map_some', Option.some.injEq] at hy
          have hz := trimmed_head q hstrip z hgz
          have hy' : y ≠ ' ' := by
            rw [← hy]
            exact toLower_ne_space z hz
          exact pySplitChar_head_ne_nil ' ' y ys hy'
    have hlastc : ∀ w, (pyLower q).getLast? = some w → w ≠ ' ' := by
      intro w hw
      rw [pyLower, List.getLast?_map] at hw
      cases hgz : q.getLast? with
      | none =>
        exact absurd (List.getLast?_eq_none_iff.mp hgz) hne
      | some z =>
        rw [hgz] at hw
        simp only [Option.map_some', Option.some.injEq] at hw
        have hz := trimmed_last q hstrip z hgz
        rw [← hw]
        exact toLower_ne_space z hz
    have hlastTok : (pySplitChar ' ' (pyLower q)).getLastD [] ≠ [] :=
      pySplitChar_last_ne_nil ' ' (pyLower q) hlastc hlne
    have hheadLen : ((pySplitChar ' ' (pyLower q)).headD []).length < 200 := by
      have hmem := headD_mem (pySplitChar ' ' (pyLower q)) []
        (pySplitChar_ne_nil ' ' (pyLower q))
      have := pySplitChar_token_length ' ' (pyLower q) _ hmem
      omega
    have hlastLen : ((pySplitChar ' ' (pyLower q)).getLastD []).length < 200 := by
      have hmem := getLastD_mem (pySplitChar ' ' (pyLower q)) []
        (pySplitChar_ne_nil ' ' (pyLower q))
      have := pySplitChar_token_length ' ' (pyLower q) _ hmem
      omega
    rw [pRatio_self _ hhead hheadLen, pRatio_self _ hlastTok hlastLen]

/-- Witness for C2's amended theorem at the query `"john smith"`. -/
theorem trimmed_self_match_200_witness :
    match_name "john smith".toList "john smith".toList = 200 :=
  trimmed_self_match_200 "john smith".toList (by decide) (by decide) (by decide)

/-! ## Stable sort lemmas -/

theorem mem_insertLe {α : Type} (le : α → α → Bool) (x : α) :
    ∀ (l : List α) (y : α), y ∈ insertLe le x l ↔ y = x ∨ y ∈ l := by
  intro l
  induction l with
  | nil => intro y; simp [insertLe]
  | cons a t ih =>
    intro y
    rw [insertLe]
    by_cases h : le a x = true
    · rw [if_pos h]
      simp only [List.mem_cons, ih]
      tauto
    · rw [if_neg h]
      simp only [List.mem_cons]

theorem length_insertLe {α : Type} (le : α → α → Bool) (x : α) :
    ∀ l : List α, (insertLe le x l).length = l.length + 1 := by
  intro l
  induction l with
  | nil => rfl
  | cons a t ih =>
    rw [insertLe]
    by_cases h : le a x = true
    · rw [if_pos h]
      simp [ih]
    · rw [if_neg h]
      simp

theorem pairwise_insertLe {α : Type} (le : α → α → Bool)
    (htot : ∀ a b, le a b = true ∨ le b a = true)
    (htr : ∀ a b c, le a b = true → le b c = true → le a c = true) (x : α) :
    ∀ l : List α, l.Pairwise (fun a b => le a b = true) →
    (insertLe le x l).Pairwise (fun a b => le a b = true) := by
  intro l
  induction l with
  | nil => intro _; simp [insertLe]
  | cons a t ih =>
    intro hp
    rw [List.pairwise_cons] at hp
    rw [insertLe]
    by_cases h : le a x = true
    · rw [if_pos h]
      rw [List.pairwise_cons]
      constructor
      · intro y hy
        rcases (mem_insertLe le x t y).mp hy with rfl | hy'
        · exact h
        · exact hp.1 y hy'
      · exact ih hp.2
    · rw [if_neg h]
      rw [List.pairwise_cons]
      constructor
      · intro y hy
        rcases List.mem_cons.mp hy with heq | hy'
        · subst heq
          rcases htot y x with h1 | h1
          · exact absurd h1 h
          · exact h1
        · have hax : le x a = true := by
            rcases htot a x with h1 | h1
            · exact absurd h1 h
            · exact h1
          exact htr x a y hax (hp.1 y hy')
      · exact List.pairwise_cons.mpr hp

theorem mem_pySorted_go {α : Type} (le : α → α → Bool) :
    ∀ (l acc : List α) (y : α),
    y ∈ l.foldl (fun acc x => insertLe le x acc) acc ↔ y ∈ acc ∨ y ∈ l := by
  intro l
  induction l with
  | nil => intro acc y; simp
  | cons a t ih =>
    intro acc y
    simp only [List.foldl_cons, ih, mem_insertLe, List.mem_cons]
    tauto

theorem mem_pySorted {α : Type} (le : α → α → Bool) (l : List α) (y : α) :
    y ∈ pySorted le l ↔ y ∈ l := by
  rw [pySorted, mem_pySorted_go]
  simp

theorem length_pySorted_go {α : Type} (le : α → α → Bool) :
    ∀ (l acc : List α),
    (l.foldl (fun acc x => insertLe le x acc) acc).length =
      acc.length + l.length := by
  intro l
  induction l with
  | nil => intro acc; rfl
  | cons a t ih =>
    intro acc
    simp only [List.foldl_cons, ih, length_insertLe, List.length_cons]
    omega

theorem length_pySorted {α : Type} (le : α → α → Bool) (l : List α) :
    (pySorted le l).length = l.length := by
  rw [pySorted, length_pySorted_go]
  simp

theorem pairwise_pySorted_go {α : Type} (le : α → α → Bool)
    (htot : ∀ a b, le a b = true ∨ le b a = true)
    (htr : ∀ a b c, le a b = true → le b c = true → le a c = true) :
    ∀ (l acc : List α), acc.Pairwise (fun a b => le a b = true) →
    (l.foldl (fun acc x => insertLe le x acc) acc).Pairwise
      (fun a b => le a b = true) := by
  intro l
  induction l with
  | nil => intro acc h; exact h
  | cons a t ih =>
    intro acc h
    simp only [List.foldl_cons]
    exact ih _ (pairwise_insertLe le htot htr a acc h)

theorem pairwise_pySorted {α : Type} (le : α → α → Bool)
    (htot : ∀ a b, le a b = true ∨ le b a = true)
    (htr : ∀ a b c, le a b = true → le b c = true → le a c = true)
    (l : List α) :
    (pySorted le l).Pairwise (fun a b => le a b = true) :=
  pairwise_pySorted_go le htot htr l [] List.Pairwise.nil

/-- C5: among surviving candidates the resolver picks an exact
case-insensitive name match when one exists and the query has more than
one whitespace token; otherwise it picks a survivor of maximal
popularity (absent popularity counting as 0).  Ties are broken in
favour of earlier candidates by the stable sort, which the claim leaves
open. -/
theorem resolver_final_pick (actor : List Char) (data : List PersonEntry)
    (hne : data ≠ []) :
    pickEntry actor data ∈ data ∧
    (exactMatches actor data ≠ [] ∧ 1 < (pySplitWs actor).length →
      pyLower ((pickEntry actor data).name.getD []) = pyLower actor) ∧
    (¬ (exactMatches actor data ≠ [] ∧ 1 < (pySplitWs actor).length) →
      ∀ e ∈ data, e.popularity.getD 0 ≤
        (pickEntry actor data).popularity.getD 0) := by
  have hcb : ((!(exactMatches actor data).isEmpty) &&
        decide (1 < (pySplitWs actor).length)) = true ↔
      (exactMatches actor data ≠ [] ∧ 1 < (pySplitWs actor).length) := by
    simp [List.isEmpty_iff]
  by_cases hc : exactMatches actor data ≠ [] ∧ 1 < (pySplitWs actor).length
  · have hb := hcb.mpr hc
    rw [pickEntry, if_pos hb]
    have hmem : (exactMatches actor data).headD noEntry ∈
        exactMatches actor data :=
      headD_mem _ _ hc.1
    have hf := List.mem_filter.mp hmem
    refine ⟨hf.1, fun _ => ?_, fun hcon => absurd hc hcon⟩
    have := hf.2
    simpa using this
  · have hb : ¬ (((!(exactMatches actor data).isEmpty) &&
        decide (1 < (pySplitWs actor).length)) = true) := by
      intro hbt
      exact hc (hcb.mp hbt)
    rw [pickEntry, if_neg hb]
    have hsne : pySorted popGe data ≠ [] := by
      intro h
      have := congrArg List.length h
      rw [length_pySorted] at this
      exact hne (List.length_eq_zero.mp this)
    have hmem : (pySorted popGe data).headD noEntry ∈ pySorted popGe data :=
      headD_mem _ _ hsne
    refine ⟨(mem_pySorted popGe data _).mp hmem, fun h => absurd h hc, ?_⟩
    intro _ e he
    have hpw := pairwise_pySorted popGe
      (fun a b => by
        rcases Int.le_total (b.popularity.getD 0) (a.popularity.getD 0) with h | h
        · exact Or.inl (by simp [popGe, h])
        · exact Or.inr (by simp [popGe, h]))
      (fun a b c h1 h2 => by
        simp only [popGe, decide_eq_true_eq] at h1 h2 ⊢
        omega)
      data
    cases hs : pySorted popGe data with
    | nil => exact absurd hs hsne
    | cons hd tl =>
      rw [hs] at hpw
      rw [List.pairwise_cons] at hpw
      have heS : e ∈ pySorted popGe data := (mem_pySorted popGe data e).mpr he
      rw [hs] at heS
      simp only [List.headD_cons]
      rcases List.mem_cons.mp heS with heq | het
      · subst heq
        exact Int.le_refl _
      · have := hpw.1 e het
        simp only [popGe, decide_eq_true_eq] at this
        exact this

/-- Exact low-popularity candidate for the C5 witness. -/
def annLeeExact : PersonEntry :=
  { id := some 1, name := some "Ann Lee".toList, popularity := some 2,
    known_for_department := some "Acting".toList, profile_path := some none }

/-- Popular non-exact candidate for the C5 witness. -/
def annLeeland : PersonEntry :=
  { id := some 2, name := some "Ann Leeland".toList, popularity := some 90,
    known_for_department := some "Acting".toList, profile_path := some none }

/-- Witness for C5 at a survivor list with an exact match and a more
popular non-exact candidate. -/
theorem resolver_final_pick_witness :
    pickEntry "ann lee".toList [annLeeland, annLeeExact] ∈
        [annLeeland, annLeeExact] ∧
    (exactMatches "ann lee".toList [annLeeland, annLeeExact] ≠ [] ∧
        1 < (pySplitWs "ann lee".toList).length →
      pyLower ((pickEntry "ann lee".toList
          [annLeeland, annLeeExact]).name.getD []) =
        pyLower "ann lee".toList) ∧
    (¬ (exactMatches "ann lee".toList [annLeeland, annLeeExact] ≠ [] ∧
        1 < (pySplitWs "ann lee".toList).length) →
      ∀ e ∈ [annLeeland, annLeeExact], e.popularity.getD 0 ≤
        (pickEntry "ann lee".toList
          [annLeeland, annLeeExact]).popularity.getD 0) :=
  resolver_final_pick "ann lee".toList [annLeeland, annLeeExact] (by decide)

/-! ## Resolver totality lemmas -/

theorem match_name_nil (a : List Char) : match_name a [] = 0 := by
  rw [match_name]
  have h1 : pySplitChar ' ' (pyLower []) = [[]] := rfl
  rw [h1]
  have h2 : ∀ x : List Char, pRatio x [] = 0 := by
    intro x
    rw [pRatio]
    simp
  simp only [List.headD_cons, List.getLastD_cons, List.getLastD]
  split <;> simp [h2]

theorem collectExcept_ok {α : Type} :
    ∀ l : List (Except PyErr α), (∀ x ∈ l, ∃ a, x = .ok a) →
    ∃ as, collectExcept l = .ok as ∧ ∀ a ∈ as, Except.ok a ∈ l := by
  intro l
  induction l with
  | nil => intro _; exact ⟨[], rfl, by simp⟩
  | cons x t ih =>
    intro h
    obtain ⟨a, ha⟩ := h x (List.mem_cons_self x t)
    obtain ⟨as, has, hmem⟩ := ih (fun y hy => h y (List.mem_cons_of_mem x hy))
    refine ⟨a :: as, ?_, ?_⟩
    · rw [ha]
      simp only [collectExcept]
      rw [has]
      rfl
    · intro b hb
      rcases List.mem_cons.mp hb with heq | hbt
      · subst heq
        rw [ha]
        exact List.mem_cons_self _ _
      · exact List.mem_cons_of_mem x (hmem b hbt)

theorem fetch_more_pages_ok (pages : Int → PageResp) (tp : Int)
    (hpg : ∀ n, pages n ≠ .noResults) :
    ∃ ls, fetch_more_pages pages tp = .ok ls ∧
      ∀ l ∈ ls, l = [] ∨ ∃ n, pages n = .ok l := by
  obtain ⟨ls, hls, hmem⟩ := collectExcept_ok
    ((fetch_more_pages_range tp).map (fun n => get_another_page (pages n)))
    (by
      intro x hx
      rcases List.mem_map.mp hx with ⟨n, _, hxe⟩
      subst hxe
      cases hp : pages n with
      | badJson => exact ⟨[], rfl⟩
      | noResults => exact absurd hp (hpg n)
      | ok es => exact ⟨es, rfl⟩)
  refine ⟨ls, hls, ?_⟩
  intro l hl
  have hmm := hmem l hl
  rcases List.mem_map.mp hmm with ⟨n, _, hne⟩
  cases hp : pages n with
  | badJson =>
    rw [hp] at hne
    simp only [get_another_page] at hne
    left
    injection hne with h
    exact h.symm
  | noResults => exact absurd hp (hpg n)
  | ok es =>
    rw [hp] at hne
    simp only [get_another_page] at hne
    right
    refine ⟨n, ?_⟩
    rw [hp]
    injection hne with h
    rw [h]

theorem pickEntry_mem (actor : List Char) (data : List PersonEntry)
    (h : data ≠ []) : pickEntry actor data ∈ data := by
  rw [pickEntry]
  by_cases hb : ((!(exactMatches actor data).isEmpty) &&
      decide (1 < (pySplitWs actor).length)) = true
  · rw [if_pos hb]
    have hex : exactMatches actor data ≠ [] := by
      simp only [Bool.and_eq_true, Bool.not_eq_true'] at hb
      intro hnil
      rw [hnil] at hb
      simp at hb
    exact (List.mem_filter.mp (headD_mem _ _ hex)).1
  · rw [if_neg hb]
    have hsne : pySorted popGe data ≠ [] := by
      intro hx
      have := congrArg List.length hx
      rw [length_pySorted] at this
      exact h (List.length_eq_zero.mp this)
    exact (mem_pySorted popGe data _).mp (headD_mem _ _ hsne)

theorem survivors_subset (actor : List Char) (data : List PersonEntry) :
    ∀ e ∈ survivors actor data, e ∈ data := by
  intro e he
  exact (List.mem_filter.mp (List.mem_filter.mp he).1).1

theorem survivors_name_ne_none (actor : List Char) (data : List PersonEntry) :
    ∀ e ∈ survivors actor data, e.name ≠ none := by
  intro e he hnone
  have h2 := (List.mem_filter.mp he).2
  rw [hnone] at h2
  simp only [Option.getD_none, match_name_nil] at h2
  simp at h2

theorem resolver_tail (actor : List Char) (data : List PersonEntry)
    (hok : ∀ e ∈ data, e.id ≠ none ∧ e.profile_path ≠ none) :
    ∃ d, (if (survivors actor data).isEmpty then
            Except.ok (defaultDetails actor)
          else buildDetails (pickEntry actor (survivors actor data))) =
        Except.ok d ∧
      (d.id = none → d = defaultDetails actor) := by
  by_cases hs : (survivors actor data).isEmpty
  · rw [if_pos hs]
    exact ⟨defaultDetails actor, rfl, fun _ => rfl⟩
  · rw [if_neg hs]
    have hsne : survivors actor data ≠ [] := by
      intro hx
      rw [hx] at hs
      exact hs rfl
    have hpk := pickEntry_mem actor (survivors actor data) hsne
    have hid := hok _ (survivors_subset actor data _ hpk)
    have hnm := survivors_name_ne_none actor data _ hpk
    cases hpid : (pickEntry actor (survivors actor data)).id with
    | none => exact absurd hpid hid.1
    | some i =>
      cases hpnm : (pickEntry actor (survivors actor data)).name with
      | none => exact absurd hpnm hnm
      | some nm =>
        cases hppp : (pickEntry actor (survivors actor data)).profile_path with
        | none => exact absurd hppp hid.2
        | some pp =>
          refine ⟨{ id := some i, name := nm,
                    img := some (match pp with
                                 | none => []
                                 | some path =>
                                   if path.isEmpty then []
                                   else imgHost ++ path) }, ?_, ?_⟩
          · simp only [buildDetails, hpid, hpnm, hppp]
            cases pp <;> rfl
          · intro hcon
            simp at hcon

/-- A candidate entry reachable from the given upstream responses:
either a member of the first page's results or of some extra page. -/
def upstreamEntry (e : PersonEntry) (resp : Option SearchResponse)
    (pages : Int → PageResp) : Prop :=
  (∃ sr rs, resp = some sr ∧ sr.results = some rs ∧ e ∈ rs) ∨
    (∃ n es, pages n = PageResp.ok es ∧ e ∈ es)

/-- C1 counterexample: a parseable search response that lacks the
`results` field makes `get_actor_details` raise `KeyError` instead of
returning the default result, contradicting totality. -/
theorem resolver_raises_on_missing_results :
    get_actor_details "x".toList
        (some { results := none, total_pages := none })
        (fun _ => PageResp.badJson) = Except.error PyErr.keyError := rfl

/-- C1 amended: resolution is total and encodes failure solely as an
absent `id` with the original query as name, provided the parsed
response carries a `results` field, no extra page parses to a body
without `results`, and every upstream candidate carries `id` and
`profile_path` keys (possibly null); without those provisos the
dictionary accesses `data['results']`, `entry['id']`,
`entry['profile_path']` raise `KeyError`. -/
theorem resolver_total_amended (actor : List Char)
    (resp : Option SearchResponse) (pages : Int → PageResp)
    (hres : ∀ sr, resp = some sr → sr.results ≠ none)
    (hpg : ∀ n, pages n ≠ PageResp.noResults)
    (hok : ∀ e, upstreamEntry e resp pages →
      e.id ≠ none ∧ e.profile_path ≠ none) :
    ∃ d, get_actor_details actor resp pages = Except.ok d ∧
      (d.id = none → d = defaultDetails actor) := by
  cases resp with
  | none => exact ⟨defaultDetails actor, rfl, fun _ => rfl⟩
  | some data0 =>
    cases hres0 : data0.results with
    | none => exact absurd hres0 (hres data0 rfl)
    | some results =>
      simp only [get_actor_details, hres0]
      by_cases hemp : results.isEmpty
      · rw [if_pos hemp]
        exact ⟨defaultDetails actor, rfl, fun _ => rfl⟩
      · rw [if_neg hemp]
        by_cases htp : 1 < data0.total_pages.getD 1
        · rw [if_pos htp]
          obtain ⟨ls, hls, hcontent⟩ :=
            fetch_more_pages_ok pages (data0.total_pages.getD 1) hpg
          rw [hls]
          simp only [Except.map]
          exact resolver_tail actor (results ++ ls.flatten) (by
            intro e he
            rcases List.mem_append.mp he with h | h
            · exact hok e (Or.inl ⟨data0, results, rfl, hres0, h⟩)
            · rcases List.mem_flatten.mp h with ⟨l, hl, hel⟩
              rcases hcontent l hl with rfl | ⟨n, hn⟩
              · simp at hel
              · exact hok e (Or.inr ⟨n, l, hn, hel⟩))
        · rw [if_neg htp]
          exact resolver_tail actor results (by
            intro e he
            exact hok e (Or.inl ⟨data0, results, rfl, hres0, he⟩))

/-- Upstream search response used by the C1 witness. -/
def c1resp : Option SearchResponse :=
  some { results := some [annEntry], total_pages := some 1 }

/-- Page environment used by the C1 witness. -/
def c1pages : Int → PageResp := fun _ => PageResp.badJson

/-- Witness for C1's amended theorem at a concrete well-formed response. -/
theorem resolver_total_amended_witness :
    ∃ d, get_actor_details "ann".toList c1resp c1pages = Except.ok d ∧
      (d.id = none → d = defaultDetails "ann".toList) :=
  resolver_total_amended "ann".toList c1resp c1pages
    (by
      intro sr h
      cases h
      decide)
    (fun n h => by cases h)
    (by
      intro e h
      rcases h with ⟨sr, rs, hsr, hrs, hmem⟩ | ⟨n, es, hn, _⟩
      · cases hsr
        have hrs' : rs = [annEntry] := by
          have : some [annEntry] = some rs := hrs
          injection this with h2
          exact h2.symm
        subst hrs'
        have he : e = annEntry := by simpa using hmem
        subst he
        decide
      · cases hn)

/-! ## Lexicographic comparison lemmas -/

theorem strLe_total : ∀ a b : List Char,
    strLe a b = true ∨ strLe b a = true := by
  intro a
  induction a with
  | nil => intro b; left; rfl
  | cons x xs ih =>
    intro b
    cases b with
    | nil => right; rfl
    | cons y ys =>
      by_cases h1 : x.val < y.val
      · left
        rw [strLe, if_pos h1]
      · by_cases h2 : y.val < x.val
        · right
          rw [strLe, if_pos h2]
        · have hxy : x = y :=
            Char.eq_of_val_eq
              (UInt32.le_antisymm (UInt32.not_lt.mp h2) (UInt32.not_lt.mp h1))
          subst hxy
          rcases ih ys with h | h
          · left
            rw [strLe, if_neg h1, if_neg h1]
            exact h
          · right
            rw [strLe, if_neg h1, if_neg h1]
            exact h

theorem strLe_trans : ∀ a b c : List Char,
    strLe a b = true → strLe b c = true → strLe a c = true := by
  intro a
  induction a with
  | nil => intro b c _ _; rfl
  | cons x xs ih =>
    intro b c hab hbc
    cases b with
    | nil => simp [strLe] at hab
    | cons y ys =>
      cases c with
      | nil => simp [strLe] at hbc
      | cons z zs =>
        rw [strLe] at hab hbc ⊢
        by_cases hxy : x.val < y.val
        · by_cases hyz : y.val < z.val
          · rw [if_pos (UInt32.lt_trans hxy hyz)]
          · by_cases hzy : z.val < y.val
            · rw [if_neg hyz, if_pos hzy] at hbc
              simp at hbc
            · have hyzeq : y = z :=
                Char.eq_of_val_eq
                  (UInt32.le_antisymm (UInt32.not_lt.mp hzy) (UInt32.not_lt.mp hyz))
              subst hyzeq
              rw [if_pos hxy]
        · by_cases hyx : y.val < x.val
          · rw [if_neg hxy, if_pos hyx] at hab
            simp at hab
          · have hxyeq : x = y :=
              Char.eq_of_val_eq
                (UInt32.le_antisymm (UInt32.not_lt.mp hyx) (UInt32.not_lt.mp hxy))
            subst hxyeq
            rw [if_neg hxy, if_neg hxy] at hab
            by_cases hyz : x.val < z.val
            · rw [if_pos hyz]
            · by_cases hzy : z.val < x.val
              · rw [if_neg hyz, if_pos hzy] at hbc
                simp at hbc
              · rw [if_neg hyz, if_neg hzy] at hbc
                rw [if_neg hyz, if_neg hzy]
                exact ih ys zs hab hbc

theorem yearGe_total : ∀ a b : Media, yearGe a b = true ∨ yearGe b a = true := by
  intro a b
  rcases strLe_total b.year a.year with h | h
  · exact Or.inl h
  · exact Or.inr h

theorem yearGe_trans : ∀ a b c : Media,
    yearGe a b = true → yearGe b c = true → yearGe a c = true := by
  intro a b c h1 h2
  exact strLe_trans c.year b.year a.year h2 h1

theorem strLe_refl : ∀ s : List Char, strLe s s = true := by
  intro s
  induction s with
  | nil => rfl
  | cons x xs ih =>
    rw [strLe, if_neg (by exact UInt32.lt_irrefl x.val),
      if_neg (by exact UInt32.lt_irrefl x.val)]
    exact ih

theorem filter_insertLe_year (x : Media) :
    ∀ l : List Media, l.Pairwise (fun a b => yearGe a b = true) →
    ∀ y : List Char,
    (insertLe yearGe x l).filter (fun z => z.year == y) =
      (if (x.year == y) = true then
        l.filter (fun z => z.year == y) ++ [x]
       else l.filter (fun z => z.year == y)) := by
  intro l
  induction l with
  | nil =>
    intro _ y
    by_cases hx : (x.year == y) = true <;>
      simp [insertLe, List.filter_cons, hx]
  | cons a t ih =>
    intro hp y
    rw [List.pairwise_cons] at hp
    rw [insertLe]
    by_cases h : yearGe a x = true
    · rw [if_pos h]
      rw [List.filter_cons, List.filter_cons, ih hp.2 y]
      by_cases hx : (x.year == y) = true <;>
        by_cases hay : (a.year == y) = true <;>
          simp [hx, hay]
    · rw [if_neg h]
      rw [List.filter_cons]
      by_cases hx : (x.year == y) = true
      · rw [if_pos hx]
        have hnil : (a :: t).filter (fun z => z.year == y) = [] := by
          rw [List.filter_eq_nil_iff]
          intro z hz hzy
          have hzx : z.year = x.year := by
            have h1 : z.year = y := by simpa using hzy
            have h2 : x.year = y := by simpa using hx
            rw [h1, h2]
          have hza : strLe z.year a.year = true := by
            rcases List.mem_cons.mp hz with heq | hzt
            · subst heq
              exact strLe_refl z.year
            · exact hp.1 z hzt
          rw [hzx] at hza
          exact h hza
        rw [hnil]
        have hx2 : x.year = y := by simpa using hx
        simp [hx2]
      · rw [if_neg hx, if_neg hx]

theorem filter_pySorted_go_year :
    ∀ (l acc : List Media),
    acc.Pairwise (fun a b => yearGe a b = true) → ∀ y,
    (l.foldl (fun acc x => insertLe yearGe x acc) acc).filter
        (fun z => z.year == y) =
      acc.filter (fun z => z.year == y) ++ l.filter (fun z => z.year == y) := by
  intro l
  induction l with
  | nil => intro acc _ y; simp
  | cons a t ih =>
    intro acc hp y
    simp only [List.foldl_cons]
    rw [ih _ (pairwise_insertLe yearGe yearGe_total yearGe_trans a acc hp) y]
    rw [filter_insertLe_year a acc hp y]
    rw [List.filter_cons]
    by_cases ha : (a.year == y) = true <;> simp [ha]

theorem filter_pySorted_year (l : List Media) (y : List Char) :
    (pySorted yearGe l).filter (fun z => z.year == y) =
      l.filter (fun z => z.year == y) := by
  rw [pySorted, filter_pySorted_go_year l [] List.Pairwise.nil y]
  simp

/-- C8: every non-absent media list returned by `handle_search` is the
concatenation of the shared-movie credits followed by the shared-TV
credits, stably sorted by the year string in descending lexicographic
order: later elements never carry a strictly larger year string, and
elements with equal year strings keep the relative order they had in the
concatenation (the `"n.d."` sentinel compared by its literal value). -/
theorem media_list_sorted_stable (inputs : List ActorInput)
    (movieNet tvNet : Option Int → Option ExtIdsResp)
    (media : List Media) (details : List ActorDetails)
    (hd : resolvedDetails inputs = Except.ok details)
    (h : handle_search inputs movieNet tvNet = Except.ok (some media, details)) :
    media = pySorted yearGe
        (buildSharedMovies ((creditsFor inputs details).map
            (fun c => c.getD emptyFilmography)) movieNet ++
          buildSharedTv ((creditsFor inputs details).map
            (fun c => c.getD emptyFilmography)) tvNet) ∧
      media.Pairwise (fun m1 m2 => strLe m2.year m1.year = true) ∧
      ∀ y, media.filter (fun m => m.year == y) =
        (buildSharedMovies ((creditsFor inputs details).map
            (fun c => c.getD emptyFilmography)) movieNet ++
          buildSharedTv ((creditsFor inputs details).map
            (fun c => c.getD emptyFilmography)) tvNet).filter
          (fun m => m.year == y) := by
  simp only [handle_search, hd] at h
  split at h
  · simp at h
  · split at h
    · simp at h
    · split at h
      · simp at h
      · have hm : media = pySorted yearGe
            (buildSharedMovies ((creditsFor inputs details).map
                (fun c => c.getD emptyFilmography)) movieNet ++
              buildSharedTv ((creditsFor inputs details).map
                (fun c => c.getD emptyFilmography)) tvNet) := by
          have h2 := h
          simp only [Except.ok.injEq, Prod.mk.injEq, Option.some.injEq] at h2
          exact h2.1.symm
        refine ⟨hm, ?_, ?_⟩
        · rw [hm]
          exact pairwise_pySorted yearGe yearGe_total yearGe_trans _
        · intro y
          rw [hm]
          exact filter_pySorted_year _ y

/-- Candidate used by the C8 witness's second actor. -/
def bobEntry : PersonEntry :=
  { id := some 6, name := some "bob".toList, popularity := some 1,
    known_for_department := some "Acting".toList, profile_path := some none }

/-- Movie credit of the C8 witness's first actor. -/
def annMovie : CastEntry :=
  { media_type := some "movie".toList, id := some 100,
    title := some "Film Y".toList, name := none,
    character := some "Aa".toList, release_date := some "2001-05-05".toList,
    first_air_date := none, episode_count := none }

/-- TV credit of the C8 witness's first actor. -/
def annTv : CastEntry :=
  { media_type := some "tv".toList, id := some 300,
    title := none, name := some "Show Z".toList,
    character := some "Ac".toList, release_date := none,
    first_air_date := some "2005-01-01".toList, episode_count := some 8 }

/-- Movie credit of the C8 witness's second actor. -/
def bobMovie : CastEntry :=
  { media_type := some "movie".toList, id := some 100,
    title := some "Film Y".toList, name := none,
    character := some "Ba".toList, release_date := some "2001-05-05".toList,
    first_air_date := none, episode_count := none }

/-- TV credit of the C8 witness's second actor. -/
def bobTv : CastEntry :=
  { media_type := some "tv".toList, id := some 300,
    title := none, name := some "Show Z".toList,
    character := some "Bc".toList, release_date := none,
    first_air_date := some "2005-01-01".toList, episode_count := some 3 }

/-- First actor input of the C8 witness. -/
def annFull : ActorInput :=
  { query := "ann".toList,
    searchResp := some { results := some [annEntry], total_pages := some 1 },
    pages := fun _ => PageResp.badJson,
    creditsResp := some { cast := some [annMovie, annTv] } }

/-- Second actor input of the C8 witness. -/
def bobFull : ActorInput :=
  { query := "bob".toList,
    searchResp := some { results := some [bobEntry], total_pages := some 1 },
    pages := fun _ => PageResp.badJson,
    creditsResp := some { cast := some [bobMovie, bobTv] } }

/-- Movie link environment of the C8 witness. -/
def wMovieNet : Option Int → Option ExtIdsResp :=
  fun i => if i == some 100 then some { imdb_id := some "tt0100".toList }
    else none

/-- TV link environment of the C8 witness. -/
def wTvNet : Option Int → Option ExtIdsResp :=
  fun i => if i == some 300 then some { imdb_id := some "tt0300".toList }
    else none

/-- The details the C8 witness's inputs resolve to. -/
def wDetails : List ActorDetails :=
  [{ id := some 5, name := "ann".toList, img := some [] },
   { id := some 6, name := "bob".toList, img := some [] }]

/-- The media list the C8 witness's search returns: the shared TV show
(year 2005) precedes the shared movie (year 2001). -/
def wMedia : List Media :=
  [{ title := some "Show Z".toList, year := "2005".toList,
     characters := ["Ac".toList, "Bc".toList],
     episodes := some [8, 3], link := "tt0300".toList },
   { title := some "Film Y".toList, year := "2001".toList,
     characters := ["Aa".toList, "Ba".toList],
     episodes := none, link := "tt0100".toList }]

/-- Witness for C8 at a concrete search with one shared movie and one
shared TV show. -/
theorem media_list_sorted_stable_witness :
    wMedia = pySorted yearGe
        (buildSharedMovies ((creditsFor [annFull, bobFull] wDetails).map
            (fun c => c.getD emptyFilmography)) wMovieNet ++
          buildSharedTv ((creditsFor [annFull, bobFull] wDetails).map
            (fun c => c.getD emptyFilmography)) wTvNet) ∧
      wMedia.Pairwise (fun m1 m2 => strLe m2.year m1.year = true) ∧
      ∀ y, wMedia.filter (fun m => m.year == y) =
        (buildSharedMovies ((creditsFor [annFull, bobFull] wDetails).map
            (fun c => c.getD emptyFilmography)) wMovieNet ++
          buildSharedTv ((creditsFor [annFull, bobFull] wDetails).map
            (fun c => c.getD emptyFilmography)) wTvNet).filter
          (fun m => m.year == y) :=
  media_list_sorted_stable [annFull, bobFull] wMovieNet wTvNet wMedia
    wDetails rfl rfl
